import Mathlib

/-!
Shallow embedding of the MediaEnhanceAI pipelines
(`audio_enhancer/core.py` and `video_enhancer/core.py`): the data model
and the operations the specification's claims are about.  Floating-point
sample values and intensities are idealized as rationals (reals only where
the source computes an irrational constant).
-/

set_option autoImplicit false

namespace MediaEnhance

/-- Audio buffer layout as held in `AudioCleaner.audio`: a 1-D numpy array
(mono) or a 2-D array whose rows are channels. -/
inductive AudioData where
  | mono (samples : List ℚ)
  | multi (chans : List (List ℚ))
deriving DecidableEq, Repr

/-- Number of channels of the buffer (`audio.shape[0]` for 2-D, 1 for 1-D),
as `load_audio` computes `self.channels`. -/
def channelCount : AudioData → ℕ
  | .mono _ => 1
  | .multi cs => cs.length

/-- Whether the buffer is currently in 1-D layout (`audio.ndim == 1`). -/
def isMonoLayout : AudioData → Bool
  | .mono _ => true
  | .multi _ => false

/-- All samples of the buffer, across channels. -/
def allSamples : AudioData → List ℚ
  | .mono l => l
  | .multi cs => cs.flatten

/-- An elementwise (numpy broadcast) operation over every sample; the array
shape is untouched. -/
def mapSamples (f : ℚ → ℚ) : AudioData → AudioData
  | .mono l => .mono (l.map f)
  | .multi cs => .multi (cs.map (List.map f))

/-- `AudioCleaner._apply_channelwise`: apply `f` to each channel while
preserving the layout (a mono buffer stays 1-D; a multi-channel buffer is
rebuilt by stacking the processed channels). -/
def applyChannelwise (f : List ℚ → List ℚ) : AudioData → AudioData
  | .mono l => .mono (f l)
  | .multi cs => .multi (cs.map f)

/-- `load_audio` sets `self.is_stereo = self.channels > 1`. -/
def isStereoOf (channels : ℕ) : Bool := decide (1 < channels)

/-- `np.max(np.abs(x))` over a list of samples (`0` for the empty list). -/
def maxAbs (l : List ℚ) : ℚ := l.foldr (fun x m => max |x| m) 0

/-- `AudioCleaner.smart_normalize`: scale every sample by `target / peak`
where `peak` is the absolute maximum over the whole buffer; a no-op when
the `peak > 0` test fails (silent audio). -/
def smartNormalize (target : ℚ) (a : AudioData) : AudioData :=
  let peak := maxAbs (allSamples a)
  if 0 < peak then mapSamples (fun x => x * (target / peak)) a else a

/-- `AudioCleaner.restore_stereo`: when the source was stereo and the buffer
has collapsed to 1-D, stack the mono signal twice
(`np.vstack([audio, audio])`); otherwise leave the buffer alone. -/
def restoreStereo : Bool → AudioData → AudioData
  | false, a => a
  | true, .mono l => .multi [l, l]
  | true, a => a

/-- The scalar quality metrics measured by `AudioCleaner.analyze_quality`
before its threshold cascade runs. -/
structure Metrics where
  snr : ℚ
  hfRatio : ℚ
  noiseFloor : ℚ
  peak : ℚ
deriving DecidableEq, Repr

/-- The adaptive `processing_params` record filled in by `analyze_quality`. -/
structure ProcessingParams where
  noiseReduction : ℚ
  highPassCutoff : ℕ
  normalizationTarget : ℚ
  needsLimiting : Bool
deriving DecidableEq, Repr

/-- The parameter-derivation cascade of `analyze_quality`: SNR thresholds
pick the noise-reduction amount, a high-frequency-ratio check bumps it
(capped at 0.8), noise-floor thresholds pick the high-pass cutoff, and peak
thresholds pick the normalization target and the limiter flag.  Returns the
params record together with the `needs_processing` flag, which is set by
the three noisy SNR branches, the two larger noise-floor branches, and the
clipping/low-volume peak branches. -/
def deriveParams (m : Metrics) : ProcessingParams × Bool :=
  let nr0 : ℚ :=
    if m.snr < 15 then 0.7
    else if m.snr < 25 then 0.5
    else if m.snr < 40 then 0.3
    else 0
  let np0 : Bool := decide (m.snr < 40)
  let nr : ℚ := if 0.3 < m.hfRatio then min (nr0 + 0.1) 0.8 else nr0
  let hp : ℕ :=
    if 0.01 < m.noiseFloor then 80
    else if 0.005 < m.noiseFloor then 60
    else if 0.002 < m.noiseFloor then 40
    else 0
  let np1 : Bool := np0 || decide (0.005 < m.noiseFloor)
  let tgt : ℚ :=
    if 0.99 < m.peak then 0.75
    else if m.peak < 0.2 then 0.8
    else if m.peak < 0.5 then 0.8
    else 0.85
  let lim : Bool := decide (0.99 < m.peak)
  let np2 : Bool := np1 || decide (0.99 < m.peak) || decide (m.peak < 0.2)
  (⟨nr, hp, tgt, lim⟩, np2)

/-- The value `analyze_quality` returns: `False` when no audio is loaded
(lines 81-83), otherwise the derived `needs_processing` flag. -/
def analyzeQuality : Option Metrics → Bool
  | none => false
  | some m => (deriveParams m).2

/-- `np.clip(x, -t, t)` on idealized reals, as `gentle_limiter` applies it. -/
def clipReal (t x : ℝ) : ℝ := min (max x (-t)) t

/-- `gentle_limiter`'s linear threshold `10 ** (threshold / 20)` at the
default `threshold = -0.5` dBFS. -/
noncomputable def thresholdLinear : ℝ := (10 : ℝ) ^ ((-0.5 : ℝ) / 20)

/-- The correction sequence of `AudioCleaner.process` up to and excluding
`restore_stereo`: noise reduction and high-pass (both channelwise, both
gated on `needs_processing` and on their parameter), normalization to the
derived target, the elementwise limiter clip when flagged, and channelwise
resampling when the sample rate differs from the target.  The external DSP
kernels (`nr.reduce_noise`, `signal.filtfilt`, `librosa.resample`) are
abstract per-channel functions and the clip an abstract per-sample one. -/
def audioCorrections (p : ProcessingParams) (needsProc srDiff : Bool)
    (fnr fhp frs : List ℚ → List ℚ) (fclip : ℚ → ℚ) (a : AudioData) : AudioData :=
  let a1 := if needsProc && decide (0 < p.noiseReduction) then applyChannelwise fnr a else a
  let a2 := if needsProc && decide (0 < p.highPassCutoff) then applyChannelwise fhp a1 else a1
  let a3 := smartNormalize p.normalizationTarget a2
  let a4 := if p.needsLimiting then mapSamples fclip a3 else a3
  if srDiff then applyChannelwise frs a4 else a4

/-- Round half to even (OpenCV `cvRound`), on rationals. -/
def rnd (q : ℚ) : ℤ :=
  let f := ⌊q⌋
  let r := q - (f : ℚ)
  if r < 1/2 then f
  else if 1/2 < r then f + 1
  else if f % 2 = 0 then f else f + 1

/-- `cv2.convertScaleAbs` on one `uint8` intensity:
`saturate_cast<uchar>(round(|alpha * x + beta|))`. -/
def convertScaleAbs (alpha beta : ℚ) (x : ℕ) : ℕ :=
  (min 255 (rnd |alpha * (x : ℚ) + beta|)).toNat

/-- Stages 4-5 of `VideoEnhancer.enhance_frame` on one intensity: the
brightness pass (`alpha=1, beta=brightnessAdjust`) when the adjustment is
nonzero, then the contrast pass (`alpha=contrastAdjust, beta=0`) when the
adjustment is not 1. -/
def brightnessContrast (contrastAdjust brightnessAdjust : ℚ) (x : ℕ) : ℕ :=
  let x1 := if brightnessAdjust ≠ 0 then convertScaleAbs 1 brightnessAdjust x else x
  if contrastAdjust ≠ 1 then convertScaleAbs contrastAdjust 0 x1 else x1

/-- The affine intensity map the spec describes for that stage, in the
spec's words: `alpha * x + beta`, clamped to the valid intensity range. -/
def specAffineIntensity (contrastAdjust brightnessAdjust : ℚ) (x : ℕ) : ℕ :=
  (min 255 (max 0 (rnd (contrastAdjust * (x : ℚ) + brightnessAdjust)))).toNat

/-- Frame-count / fps / read-cursor state after the metadata portion of
`VideoEnhancer.analyze_video`. -/
structure VideoMeta where
  frameCount : ℤ
  fps : ℚ
  cursor : ℕ
deriving DecidableEq, Repr

/-- The manual `while cap.read()` counting loop of `analyze_video`: the
number of frames read from cursor `pos` to the end of a `total`-frame
stream, together with the final cursor position. -/
def readCount (total : ℕ) (pos : ℕ) : ℕ × ℕ :=
  if _h : pos < total then
    let r := readCount total (pos + 1)
    (r.1 + 1, r.2)
  else (0, pos)
termination_by total - pos
decreasing_by omega

/-- Metadata validation and recovery of `analyze_video` (lines 57-77): when
the reported frame count or fps is invalid, recount the frames by an
exhaustive sequential read, reset the cursor to the start, and default the
fps to 30 if it is still invalid; fail (`return False`) when the resulting
frame count is still not positive. -/
def analyzeMeta (reportedCount : ℤ) (reportedFps : ℚ) (actualFrames : ℕ) : Option VideoMeta :=
  let s : VideoMeta :=
    if reportedCount ≤ 0 ∨ reportedFps ≤ 0 then
      { frameCount := ((readCount actualFrames 0).1 : ℤ)
        fps := if reportedFps ≤ 0 then 30 else reportedFps
        cursor := 0 }
    else
      { frameCount := reportedCount, fps := reportedFps, cursor := 0 }
  if s.frameCount ≤ 0 then none else some s

/-- Which of the two external video handles are currently open. -/
structure ResState where
  capOpen : Bool
  writerOpen : Bool
deriving DecidableEq, Repr

/-- Environment of one `VideoEnhancer.process` run: whether the input
capture opens, the container-reported metadata, the true frame count, and
whether the output writer opens. -/
structure VideoEnv where
  capOpens : Bool
  reportedCount : ℤ
  reportedFps : ℚ
  actualFrames : ℕ
  writerOpens : Bool
deriving DecidableEq, Repr

/-- `analyze_video` as `process` observes it: the success flag plus the
resource state left behind.  The capture is opened first and is never
released inside `analyze_video`, whether the analysis succeeds or fails. -/
def analyzeVideoRes (e : VideoEnv) : Bool × ResState :=
  if e.capOpens then
    match analyzeMeta e.reportedCount e.reportedFps e.actualFrames with
    | none => (false, ⟨true, false⟩)
    | some _ => (true, ⟨true, false⟩)
  else (false, ⟨false, false⟩)

/-- Control and resource flow of `VideoEnhancer.process`: abort on analysis
failure; then create the output writer and, when it cannot be opened,
return failure without touching the capture handle; otherwise process all
frames and release both handles. -/
def processVideo (e : VideoEnv) : Bool × ResState :=
  let r := analyzeVideoRes e
  if r.1 then
    if e.writerOpens then (true, ⟨false, false⟩)
    else (false, r.2)
  else (false, r.2)

/-! ### Helper lemmas -/

lemma maxAbs_nonneg (l : List ℚ) : 0 ≤ maxAbs l := by
  induction l with
  | nil => simp [maxAbs]
  | cons x xs ih =>
    simp only [maxAbs, List.foldr_cons] at ih ⊢
    exact le_trans ih (le_max_right _ _)

lemma abs_le_maxAbs {x : ℚ} {l : List ℚ} (hx : x ∈ l) : |x| ≤ maxAbs l := by
  induction l with
  | nil => cases hx
  | cons y ys ih =>
    rcases List.mem_cons.mp hx with h | h
    · subst h
      exact le_max_left _ _
    · exact le_trans (ih h) (le_max_right _ _)

lemma maxAbs_eq_zero_iff (l : List ℚ) : maxAbs l = 0 ↔ ∀ x ∈ l, x = 0 := by
  constructor
  · intro h x hx
    have h1 : |x| ≤ 0 := h ▸ abs_le_maxAbs hx
    exact abs_eq_zero.mp (le_antisymm h1 (abs_nonneg x))
  · intro h
    induction l with
    | nil => rfl
    | cons y ys ih =>
      have hy : y = 0 := h y (List.mem_cons_self y ys)
      have hys : maxAbs ys = 0 := ih fun x hx => h x (List.mem_cons_of_mem y hx)
      simp only [maxAbs, List.foldr_cons, hy, abs_zero]
      simp only [maxAbs] at hys
      simp [hys]

lemma maxAbs_map_mul {c : ℚ} (hc : 0 ≤ c) (l : List ℚ) :
    maxAbs (l.map (fun x => x * c)) = maxAbs l * c := by
  induction l with
  | nil => simp [maxAbs]
  | cons y ys ih =>
    simp only [List.map_cons, maxAbs, List.foldr_cons] at ih ⊢
    rw [ih, abs_mul, abs_of_nonneg hc, max_mul_of_nonneg _ _ hc]

lemma allSamples_mapSamples (f : ℚ → ℚ) (a : AudioData) :
    allSamples (mapSamples f a) = (allSamples a).map f := by
  cases a with
  | mono l => rfl
  | multi cs => simp [allSamples, mapSamples, List.map_flatten]

lemma maxAbs_pos_of_exists {l : List ℚ} (h : ∃ x ∈ l, x ≠ 0) : 0 < maxAbs l := by
  obtain ⟨x, hx, hx0⟩ := h
  exact lt_of_lt_of_le (abs_pos.mpr hx0) (abs_le_maxAbs hx)

/-- Every sample of a normalized (or silently skipped) buffer has absolute
value at most the normalization target. -/
lemma abs_le_of_mem_smartNormalize {t : ℚ} (ht : 0 < t) {a : AudioData} {x : ℚ}
    (hx : x ∈ allSamples (smartNormalize t a)) : |x| ≤ t := by
  by_cases hp : 0 < maxAbs (allSamples a)
  · simp only [smartNormalize, if_pos hp, allSamples_mapSamples] at hx
    obtain ⟨y, hy, rfl⟩ := List.mem_map.mp hx
    have h1 : |y| ≤ maxAbs (allSamples a) := abs_le_maxAbs hy
    have hq : 0 ≤ t / maxAbs (allSamples a) := le_of_lt (div_pos ht hp)
    rw [abs_mul, abs_of_nonneg hq]
    calc |y| * (t / maxAbs (allSamples a))
        ≤ maxAbs (allSamples a) * (t / maxAbs (allSamples a)) :=
          mul_le_mul_of_nonneg_right h1 hq
      _ = t := by field_simp
  · simp only [smartNormalize, if_neg hp] at hx
    have h0 : maxAbs (allSamples a) = 0 := le_antisymm (not_lt.mp hp) (maxAbs_nonneg _)
    have := abs_le_maxAbs hx
    rw [h0] at this
    linarith

/-- The cutoff component of the derivation depends only on the noise floor,
through the three thresholds of `analyze_quality`. -/
lemma highPassCutoff_deriveParams (m : Metrics) :
    (deriveParams m).1.highPassCutoff =
      if 0.01 < m.noiseFloor then 80
      else if 0.005 < m.noiseFloor then 60
      else if 0.002 < m.noiseFloor then 40
      else 0 := rfl

/-! ### Claims -/

/-- **C4** For every loaded audio buffer and every normalization target
`t ∈ (0, 1]`: if the buffer is not all-zero, after `smart_normalize` the
maximum absolute sample value over all channels equals `t` exactly (the
rational idealization of "within floating-point tolerance"); if the buffer
is all-zero, `smart_normalize` leaves it unchanged. -/
theorem smart_normalize_peak_eq_target (t : ℚ) (a : AudioData)
    (ht0 : 0 < t) (ht1 : t ≤ 1) :
    ((∃ x ∈ allSamples a, x ≠ 0) →
      maxAbs (allSamples (smartNormalize t a)) = t)
    ∧ ((∀ x ∈ allSamples a, x = 0) → smartNormalize t a = a) := by
  constructor
  · intro hex
    have hp : 0 < maxAbs (allSamples a) := maxAbs_pos_of_exists hex
    have hq : 0 ≤ t / maxAbs (allSamples a) := le_of_lt (div_pos ht0 hp)
    simp only [smartNormalize, if_pos hp, allSamples_mapSamples]
    rw [maxAbs_map_mul hq]
    field_simp
  · intro hall
    have h0 : maxAbs (allSamples a) = 0 := (maxAbs_eq_zero_iff _).mpr hall
    simp [smartNormalize, h0]

/-- Witness for C4 at `t = 4/5` and buffer `[1/2, 0]`. -/
theorem smart_normalize_peak_witness :
    maxAbs (allSamples (smartNormalize (4/5) (AudioData.mono [1/2, 0]))) = 4/5 :=
  (smart_normalize_peak_eq_target (4/5) (AudioData.mono [1/2, 0])
      (by norm_num) (by norm_num)).1
    ⟨1/2, by simp [allSamples], by norm_num⟩

/-- **C6** For every pair of quality snapshots that differ only in the
noise floor, the derived high-pass cutoff is monotonically non-decreasing
in the noise floor, takes only the values `{0, 40, 60, 80}`, and follows
the four bands (`else`, `> 0.002`, `> 0.005`, `> 0.01`). -/
theorem high_pass_cutoff_monotone (m₁ m₂ : Metrics)
    (hs : m₁.snr = m₂.snr) (hh : m₁.hfRatio = m₂.hfRatio)
    (hpk : m₁.peak = m₂.peak) (hn : m₁.noiseFloor ≤ m₂.noiseFloor) :
    (deriveParams m₁).1.highPassCutoff ≤ (deriveParams m₂).1.highPassCutoff
    ∧ (deriveParams m₁).1.highPassCutoff ∈ ([0, 40, 60, 80] : List ℕ)
    ∧ (0.01 < m₁.noiseFloor → (deriveParams m₁).1.highPassCutoff = 80)
    ∧ (0.005 < m₁.noiseFloor ∧ m₁.noiseFloor ≤ 0.01 →
        (deriveParams m₁).1.highPassCutoff = 60)
    ∧ (0.002 < m₁.noiseFloor ∧ m₁.noiseFloor ≤ 0.005 →
        (deriveParams m₁).1.highPassCutoff = 40)
    ∧ (m₁.noiseFloor ≤ 0.002 → (deriveParams m₁).1.highPassCutoff = 0) := by
  have e1 : (0.002 : ℚ) < 0.005 := by norm_num
  have e2 : (0.005 : ℚ) < 0.01 := by norm_num
  rw [highPassCutoff_deriveParams, highPassCutoff_deriveParams]
  refine ⟨?_, ?_, ?_, ?_, ?_, ?_⟩
  · split_ifs <;> first | (exfalso; linarith) | norm_num
  · split_ifs <;> simp
  · intro h
    split_ifs <;> first | rfl | (exfalso; linarith)
  · rintro ⟨h1, h2⟩
    split_ifs <;> first | rfl | (exfalso; linarith)
  · rintro ⟨h1, h2⟩
    split_ifs <;> first | rfl | (exfalso; linarith)
  · intro h
    split_ifs <;> first | rfl | (exfalso; linarith)

/-- Witness for C6 at noise floors `0.003 ≤ 0.02` (other metrics equal). -/
theorem high_pass_cutoff_monotone_witness :
    (deriveParams ⟨50, 0, 3/1000, 1/2⟩).1.highPassCutoff ≤
      (deriveParams ⟨50, 0, 1/50, 1/2⟩).1.highPassCutoff :=
  (high_pass_cutoff_monotone ⟨50, 0, 3/1000, 1/2⟩ ⟨50, 0, 1/50, 1/2⟩
      rfl rfl rfl (by norm_num)).1

/-- **C7** For every quality snapshot, the derived record satisfies:
`noiseReduction ∈ [0, 0.8]`, `highPassCutoffHz ∈ {0, 40, 60, 80}`, and
`normalizationTarget` is one of `0.75, 0.8, 0.85`, hence in `(0, 1]`. -/
theorem processing_params_invariants (m : Metrics) :
    0 ≤ (deriveParams m).1.noiseReduction
    ∧ (deriveParams m).1.noiseReduction ≤ 0.8
    ∧ (deriveParams m).1.highPassCutoff ∈ ([0, 40, 60, 80] : List ℕ)
    ∧ (deriveParams m).1.normalizationTarget ∈ ([0.75, 0.8, 0.85] : List ℚ)
    ∧ 0 < (deriveParams m).1.normalizationTarget
    ∧ (deriveParams m).1.normalizationTarget ≤ 1 := by
  simp only [deriveParams]
  refine ⟨?_, ?_, ?_, ?_, ?_, ?_⟩ <;>
    split_ifs <;> norm_num [min_def]

/-- **C8** The return value of `analyze_quality` is the `needs_processing`
boolean, not a success signal: there is a loaded buffer with clean metrics
(`snr ≥ 40`, `noiseFloor ≤ 0.005`, `peak ≥ 0.2`) on which it returns
`False` — the very value it returns when no audio is loaded at all. -/
theorem analyze_quality_return_ambiguous :
    ∃ m : Metrics, 40 ≤ m.snr ∧ m.noiseFloor ≤ 0.005 ∧ 0.2 ≤ m.peak
      ∧ analyzeQuality (some m) = false ∧ analyzeQuality none = false := by
  refine ⟨⟨50, 0, 1/1000, 1/2⟩, by norm_num, by norm_num, by norm_num, ?_, rfl⟩
  simp only [analyzeQuality, deriveParams]
  norm_num

lemma rnd_intCast (k : ℤ) : rnd (k : ℚ) = k := by
  simp [rnd]

lemma rnd_le_of_le {q : ℚ} {m : ℤ} (h : q ≤ (m : ℚ)) : rnd q ≤ m := by
  have hf : ⌊q⌋ ≤ m := by
    have h1 := Int.floor_mono h
    rwa [Int.floor_intCast] at h1
  simp only [rnd]
  split_ifs with h1 h2 h3
  · exact hf
  · rcases lt_or_eq_of_le hf with hlt | heq
    · omega
    · exfalso
      have hc : (⌊q⌋ : ℚ) = (m : ℚ) := by exact_mod_cast heq
      rw [hc] at h2
      linarith
  · exact hf
  · rcases lt_or_eq_of_le hf with hlt | heq
    · omega
    · exfalso
      have hr : q - (⌊q⌋ : ℚ) = 1/2 := le_antisymm (not_lt.mp h2) (not_lt.mp h1)
      have hc : (⌊q⌋ : ℚ) = (m : ℚ) := by exact_mod_cast heq
      rw [hc] at hr
      linarith

/-- **C1 counterexample** A three-channel source (`is_stereo` is
`channels > 1`, here with `channels = 3`) whose buffer has collapsed to
mono is "restored" to exactly two channels, not to the original three:
the claimed output channel count equals the original one fails. -/
theorem restore_stereo_three_channel_counterexample :
    restoreStereo (isStereoOf 3) (AudioData.mono [0]) = AudioData.multi [[0], [0]]
    ∧ channelCount (restoreStereo (isStereoOf 3) (AudioData.mono [0])) ≠ 3 := by
  constructor
  · rfl
  · decide

/-- **C1 amended** For every loaded buffer whose source had more than one
channel and whose audio has collapsed to mono, `restore_stereo` produces
an output with exactly two channels, the mono signal duplicated
bit-identically into both, regardless of the original channel count — so
for a stereo source this matches the original count (`channels == 2`). -/
theorem restore_stereo_duplicates_to_two_channels (c : ℕ) (l : List ℚ) (h : 1 < c) :
    restoreStereo (isStereoOf c) (AudioData.mono l) = AudioData.multi [l, l]
    ∧ channelCount (restoreStereo (isStereoOf c) (AudioData.mono l)) = 2 := by
  have hb : isStereoOf c = true := decide_eq_true h
  rw [hb]
  exact ⟨rfl, rfl⟩

/-- Witness for the amended C1 at a stereo source (`channels = 2`). -/
theorem restore_stereo_duplicates_witness :
    restoreStereo (isStereoOf 2) (AudioData.mono [1/2]) = AudioData.multi [[1/2], [1/2]] :=
  (restore_stereo_duplicates_to_two_channels 2 [1/2] (by norm_num)).1

/-- `convertScaleAbs` at an input whose affine value is a nonnegative
integer not exceeding 255: no rounding, folding or saturation happens. -/
lemma convertScaleAbs_intValue (a b : ℚ) (x : ℕ) (k : ℤ)
    (hk : a * (x : ℚ) + b = (k : ℚ)) (h0 : 0 ≤ k) (h255 : k ≤ 255) :
    convertScaleAbs a b x = k.toNat := by
  unfold convertScaleAbs
  rw [hk, abs_of_nonneg (by exact_mod_cast h0), rnd_intCast, min_eq_right h255]

/-- **C2 counterexample** With `contrastAdjust = 1.3` and
`brightnessAdjust = 30` (both derivable: a dark, low-contrast video),
intensity `100` maps to `169 = 1.3 * (100 + 30)` under the two-pass stage
of `enhance_frame`, while the spec's affine map `alpha*x + beta` gives
`160` — no clamping or rounding is involved at this input. -/
theorem brightness_contrast_affine_counterexample :
    brightnessContrast (13/10) 30 100 = 169
    ∧ specAffineIntensity (13/10) 30 100 = 160 := by
  constructor
  · have h1 : convertScaleAbs 1 30 100 = 130 := by
      rw [convertScaleAbs_intValue 1 30 100 130 (by norm_num) (by norm_num) (by norm_num)]
      rfl
    have h2 : convertScaleAbs (13/10) 0 130 = 169 := by
      rw [convertScaleAbs_intValue (13/10) 0 130 169 (by norm_num) (by norm_num) (by norm_num)]
      rfl
    simp only [brightnessContrast]
    rw [if_pos (by norm_num : (30 : ℚ) ≠ 0), h1,
      if_pos (by norm_num : (13/10 : ℚ) ≠ 1), h2]
  · unfold specAffineIntensity
    have h3 : (13/10 : ℚ) * ((100 : ℕ) : ℚ) + 30 = ((160 : ℤ) : ℚ) := by norm_num
    rw [h3, rnd_intCast]
    rfl

/-- **C2 amended** When both adjustments are active and no saturation or
absolute-value folding occurs, the brightness/contrast stage computes
`round(alpha * (x + beta)) = alpha*x + alpha*beta`: the brightness bias is
added (pass 4) before the contrast scale (pass 5), so the composite scales
the bias by `alpha` instead of realizing `alpha*x + beta`. -/
theorem brightness_contrast_composite_scales_bias (ca : ℚ) (b : ℤ) (x : ℕ)
    (hca : ca ≠ 1) (hb : (b : ℚ) ≠ 0)
    (h0 : 0 ≤ (x : ℤ) + b) (h255 : (x : ℤ) + b ≤ 255)
    (hc0 : 0 ≤ ca * ((x : ℚ) + (b : ℚ))) (hc255 : ca * ((x : ℚ) + (b : ℚ)) ≤ 255) :
    brightnessContrast ca (b : ℚ) x = (rnd (ca * ((x : ℚ) + (b : ℚ)))).toNat := by
  have hx1 : convertScaleAbs 1 (b : ℚ) x = ((x : ℤ) + b).toNat := by
    unfold convertScaleAbs
    have h1 : (1 : ℚ) * (x : ℚ) + (b : ℚ) = (((x : ℤ) + b : ℤ) : ℚ) := by
      push_cast
      ring
    have h2 : (0 : ℚ) ≤ (((x : ℤ) + b : ℤ) : ℚ) := by exact_mod_cast h0
    rw [h1, abs_of_nonneg h2, rnd_intCast, min_eq_right h255]
  have hcast : ((((x : ℤ) + b).toNat : ℕ) : ℚ) = (x : ℚ) + (b : ℚ) := by
    have h := Int.toNat_of_nonneg h0
    exact_mod_cast congrArg (fun z : ℤ => (z : ℚ)) h
  simp only [brightnessContrast]
  rw [if_pos hb, hx1, if_pos hca]
  unfold convertScaleAbs
  have hle : rnd (ca * ((x : ℚ) + (b : ℚ))) ≤ (255 : ℤ) :=
    rnd_le_of_le (by exact_mod_cast hc255)
  rw [hcast, add_zero, abs_of_nonneg hc0, min_eq_right hle]

/-- Witness for the amended C2 at `alpha = 1.3`, `beta = 30`, `x = 100`. -/
theorem brightness_contrast_composite_witness :
    brightnessContrast (13/10) ((30 : ℤ) : ℚ) 100 =
      (rnd ((13/10) * ((100 : ℚ) + ((30 : ℤ) : ℚ)))).toNat :=
  brightness_contrast_composite_scales_bias (13/10) 30 100
    (by norm_num) (by norm_num) (by norm_num) (by norm_num) (by norm_num) (by norm_num)

/-- The manual counting loop reads exactly the remaining frames and leaves
the cursor at the end of the stream. -/
lemma readCount_spec : ∀ (n p : ℕ), p ≤ n → readCount n p = (n - p, n) := by
  intro n
  have H : ∀ (k p : ℕ), n - p = k → p ≤ n → readCount n p = (n - p, n) := by
    intro k
    induction k with
    | zero =>
      intro p hk hp
      rw [readCount, dif_neg (by omega : ¬ p < n)]
      refine Prod.ext (by omega) (by omega)
    | succ k ih =>
      intro p hk hp
      have hlt : p < n := by omega
      rw [readCount]
      rw [dif_pos hlt, ih (p + 1) (by omega) (by omega)]
      refine Prod.ext ?_ rfl
      simp
      omega
  intro p hp
  exact H (n - p) p rfl hp

/-- **C5** For every video whose container reports `frameCount ≤ 0` or
`fps ≤ 0`, the metadata stage of `analyze_video` recovers the frame count
by an exhaustive sequential read, resets the read cursor to the start,
assumes `fps = 30.0` when the fps is still invalid (and keeps the reported
fps otherwise), and fails if and only if the recovered count is `0`. -/
theorem analyze_video_metadata_recovery (rc : ℤ) (rf : ℚ) (n : ℕ)
    (h : rc ≤ 0 ∨ rf ≤ 0) :
    (analyzeMeta rc rf n = none ↔ n = 0)
    ∧ (∀ v, analyzeMeta rc rf n = some v →
        v.frameCount = (n : ℤ) ∧ v.cursor = 0
        ∧ v.fps = (if rf ≤ 0 then 30 else rf)) := by
  have hcount : (readCount n 0).1 = n := by
    rw [readCount_spec n 0 (Nat.zero_le n)]
    simp
  simp only [analyzeMeta, if_pos h, hcount]
  rcases Nat.eq_zero_or_pos n with h0 | h0
  · subst h0
    constructor
    · norm_num
    · intro v hv
      exact absurd hv (by simp)
  · have hne : ¬ ((n : ℤ) ≤ 0) := not_le.mpr (by exact_mod_cast h0)
    rw [if_neg hne]
    constructor
    · simp
      omega
    · intro v hv
      have hv' := Option.some.inj hv
      rw [← hv']
      exact ⟨rfl, rfl, rfl⟩

/-- Witness for C5: unreported metadata and an empty stream yield failure. -/
theorem analyze_video_metadata_witness : analyzeMeta 0 0 0 = none :=
  (analyze_video_metadata_recovery 0 0 0 (Or.inl le_rfl)).1.mpr rfl

/-- `analyze_video` leaves the capture open whenever it succeeds. -/
lemma analyzeVideoRes_state (e : VideoEnv) (h : (analyzeVideoRes e).1 = true) :
    (analyzeVideoRes e).2 = ⟨true, false⟩ := by
  unfold analyzeVideoRes at h ⊢
  by_cases hc : e.capOpens
  · rw [if_pos hc] at h ⊢
    cases hm : analyzeMeta e.reportedCount e.reportedFps e.actualFrames <;> simp [hm]
  · rw [if_neg hc] at h
    simp at h

/-- **C3 counterexample** At the environment where the input capture opens,
the container reports 5 frames at 30 fps (all valid), and the output writer
cannot be opened, `process` returns failure but the input capture handle is
still open — refuting the claim that every open resource is released
before returning. -/
theorem video_writer_failure_leaves_capture_open :
    (processVideo ⟨true, 5, 30, 5, false⟩).1 = false
    ∧ (processVideo ⟨true, 5, 30, 5, false⟩).2.capOpen = true := by
  constructor <;> rfl

/-- **C3 amended** For every video input on which analysis succeeds, if the
output stream cannot be opened for writing, `process` returns failure with
the input capture handle left open (it is released only after successful
frame processing); no writer resource is open since the writer never
opened. -/
theorem video_writer_failure_aborts (e : VideoEnv)
    (h1 : (analyzeVideoRes e).1 = true) (h2 : e.writerOpens = false) :
    processVideo e = (false, ⟨true, false⟩) := by
  have hs := analyzeVideoRes_state e h1
  simp only [processVideo]
  rw [h1, h2, hs]
  simp

/-- Witness for the amended C3 at a concrete failing-writer environment. -/
theorem video_writer_failure_witness :
    processVideo ⟨true, 5, 30, 5, false⟩ = (false, ⟨true, false⟩) :=
  video_writer_failure_aborts ⟨true, 5, 30, 5, false⟩ (by rfl) rfl

/-- The limiter flag is set only on the clipping branch of the peak
cascade, which also sets the normalization target to 0.75. -/
lemma needsLimiting_target (m : Metrics)
    (h : (deriveParams m).1.needsLimiting = true) :
    (deriveParams m).1.normalizationTarget = 0.75 := by
  have hl : (deriveParams m).1.needsLimiting = decide (0.99 < m.peak) := rfl
  rw [hl] at h
  have hpk : 0.99 < m.peak := of_decide_eq_true h
  have ht : (deriveParams m).1.normalizationTarget =
      if 0.99 < m.peak then 0.75
      else if m.peak < 0.2 then 0.8
      else if m.peak < 0.5 then 0.8
      else 0.85 := rfl
  rw [ht, if_pos hpk]

/-- The limiter threshold `10 ** (-0.5 / 20)` lies strictly above `3/4`. -/
lemma three_quarters_lt_thresholdLinear : (3/4 : ℝ) < thresholdLinear := by
  have h10 : (0 : ℝ) < 10 := by norm_num
  have hkey : (10 : ℝ) ^ ((1 : ℝ)/40) < 4/3 := by
    have h1 : ((10 : ℝ) ^ ((1 : ℝ)/40)) ^ (40 : ℕ) = 10 := by
      rw [← Real.rpow_natCast ((10 : ℝ) ^ ((1 : ℝ)/40)) 40, ← Real.rpow_mul h10.le]
      norm_num
    have h2 : ((10 : ℝ) ^ ((1 : ℝ)/40)) ^ (40 : ℕ) < (4/3 : ℝ) ^ (40 : ℕ) := by
      rw [h1]
      norm_num
    exact lt_of_pow_lt_pow_left 40 (by norm_num) h2
  have hpos : (0 : ℝ) < (10 : ℝ) ^ ((1 : ℝ)/40) := Real.rpow_pos_of_pos h10 _
  have hinv : ((4/3 : ℝ))⁻¹ < ((10 : ℝ) ^ ((1 : ℝ)/40))⁻¹ := inv_lt_inv_of_lt hpos hkey
  calc (3/4 : ℝ) = ((4/3 : ℝ))⁻¹ := by norm_num
    _ < ((10 : ℝ) ^ ((1 : ℝ)/40))⁻¹ := hinv
    _ = (10 : ℝ) ^ (-((1 : ℝ)/40)) := (Real.rpow_neg h10.le _).symm
    _ = thresholdLinear := by
        rw [thresholdLinear]
        norm_num

/-- **C9** Whenever the limiting stage runs inside `process` (the limiter
flag was derived, forcing `normalizationTarget = 0.75`), the hard clip at
`±10^(-0.5/20) ≈ 0.944` is the identity on the buffer that
`smart_normalize` just produced: every sample then has absolute value at
most 0.75, strictly below the clip threshold. -/
theorem limiter_identity_after_normalize (m : Metrics)
    (h : (deriveParams m).1.needsLimiting = true)
    (a : AudioData) (x : ℚ)
    (hx : x ∈ allSamples
      (smartNormalize ((deriveParams m).1.normalizationTarget) a)) :
    clipReal thresholdLinear (x : ℝ) = (x : ℝ) := by
  rw [needsLimiting_target m h] at hx
  have habs : |x| ≤ 0.75 := abs_le_of_mem_smartNormalize (by norm_num) hx
  have h34 : |x| ≤ (3/4 : ℚ) := le_trans habs (by norm_num)
  have habsR : |(x : ℝ)| ≤ 3/4 := by
    calc |(x : ℝ)| = ((|x| : ℚ) : ℝ) := by rw [Rat.cast_abs]
      _ ≤ ((3/4 : ℚ) : ℝ) := by exact_mod_cast h34
      _ = (3/4 : ℝ) := by norm_num
  have ht : (3/4 : ℝ) < thresholdLinear := three_quarters_lt_thresholdLinear
  obtain ⟨hlo, hhi⟩ := abs_le.mp habsR
  unfold clipReal
  rw [max_eq_left (by linarith), min_eq_left (by linarith)]

/-- Witness for C9: a clipping-detected snapshot (`peak = 1`), the buffer
`[1/2]`, and its normalized sample `3/4`. -/
theorem limiter_identity_witness :
    clipReal thresholdLinear ((3/4 : ℚ) : ℝ) = ((3/4 : ℚ) : ℝ) :=
  limiter_identity_after_normalize ⟨50, 0, 0, 1⟩
    (by
      rw [show (deriveParams ⟨50, 0, 0, 1⟩).1.needsLimiting
          = decide ((0.99 : ℚ) < 1) from rfl]
      exact decide_eq_true (by norm_num))
    (AudioData.mono [1/2]) (3/4)
    (by
      rw [show (deriveParams ⟨50, 0, 0, 1⟩).1.normalizationTarget
          = (if (0.99 : ℚ) < 1 then (0.75 : ℚ) else if (1 : ℚ) < 0.2 then 0.8
             else if (1 : ℚ) < 0.5 then 0.8 else 0.85) from rfl]
      norm_num [smartNormalize, allSamples, maxAbs, mapSamples, abs_of_nonneg])

lemma channelCount_mapSamples (f : ℚ → ℚ) (a : AudioData) :
    channelCount (mapSamples f a) = channelCount a := by
  cases a <;> simp [mapSamples, channelCount]

lemma isMonoLayout_mapSamples (f : ℚ → ℚ) (a : AudioData) :
    isMonoLayout (mapSamples f a) = isMonoLayout a := by
  cases a <;> rfl

lemma channelCount_applyChannelwise (f : List ℚ → List ℚ) (a : AudioData) :
    channelCount (applyChannelwise f a) = channelCount a := by
  cases a <;> simp [applyChannelwise, channelCount]

lemma isMonoLayout_applyChannelwise (f : List ℚ → List ℚ) (a : AudioData) :
    isMonoLayout (applyChannelwise f a) = isMonoLayout a := by
  cases a <;> rfl

lemma channelCount_smartNormalize (t : ℚ) (a : AudioData) :
    channelCount (smartNormalize t a) = channelCount a := by
  simp only [smartNormalize]
  split_ifs
  · exact channelCount_mapSamples _ a
  · rfl

lemma isMonoLayout_smartNormalize (t : ℚ) (a : AudioData) :
    isMonoLayout (smartNormalize t a) = isMonoLayout a := by
  simp only [smartNormalize]
  split_ifs
  · exact isMonoLayout_mapSamples _ a
  · rfl

lemma channelCount_audioCorrections (p : ProcessingParams) (needsProc srDiff : Bool)
    (fnr fhp frs : List ℚ → List ℚ) (fclip : ℚ → ℚ) (a : AudioData) :
    channelCount (audioCorrections p needsProc srDiff fnr fhp frs fclip a) = channelCount a := by
  simp only [audioCorrections]
  split_ifs <;>
    simp only [channelCount_applyChannelwise, channelCount_mapSamples,
      channelCount_smartNormalize]

lemma isMonoLayout_audioCorrections (p : ProcessingParams) (needsProc srDiff : Bool)
    (fnr fhp frs : List ℚ → List ℚ) (fclip : ℚ → ℚ) (a : AudioData) :
    isMonoLayout (audioCorrections p needsProc srDiff fnr fhp frs fclip a) = isMonoLayout a := by
  simp only [audioCorrections]
  split_ifs <;>
    simp only [isMonoLayout_applyChannelwise, isMonoLayout_mapSamples,
      isMonoLayout_smartNormalize]

lemma restoreStereo_multi (b : Bool) (cs : List (List ℚ)) :
    restoreStereo b (AudioData.multi cs) = AudioData.multi cs := by
  cases b <;> rfl

/-- **C10** Every audio correction stage in `process` (noise reduction,
high-pass, normalization, limiting, resampling) preserves the channel
count and the array layout of the loaded buffer — a multi-channel buffer
stays 2-D with the same number of rows and a mono buffer stays 1-D — so
the mono-collapse duplication branch of `restore_stereo` is never taken
during `process`: applying it to the corrected buffer changes nothing. -/
theorem process_preserves_channel_layout (p : ProcessingParams) (needsProc srDiff : Bool)
    (fnr fhp frs : List ℚ → List ℚ) (fclip : ℚ → ℚ) (a : AudioData) :
    channelCount (audioCorrections p needsProc srDiff fnr fhp frs fclip a) = channelCount a
    ∧ isMonoLayout (audioCorrections p needsProc srDiff fnr fhp frs fclip a) = isMonoLayout a
    ∧ restoreStereo (isStereoOf (channelCount a))
        (audioCorrections p needsProc srDiff fnr fhp frs fclip a)
      = audioCorrections p needsProc srDiff fnr fhp frs fclip a := by
  refine ⟨channelCount_audioCorrections p needsProc srDiff fnr fhp frs fclip a,
    isMonoLayout_audioCorrections p needsProc srDiff fnr fhp frs fclip a, ?_⟩
  cases ha : a with
  | mono l =>
    have hm : isMonoLayout (audioCorrections p needsProc srDiff fnr fhp frs fclip
        (AudioData.mono l)) = true :=
      isMonoLayout_audioCorrections p needsProc srDiff fnr fhp frs fclip (AudioData.mono l)
    have hst : isStereoOf (channelCount (AudioData.mono l)) = false := rfl
    rw [hst]
    rfl
  | multi cs =>
    cases hout : audioCorrections p needsProc srDiff fnr fhp frs fclip (AudioData.multi cs) with
    | mono l =>
      exfalso
      have hm := isMonoLayout_audioCorrections p needsProc srDiff fnr fhp frs fclip
        (AudioData.multi cs)
      rw [hout] at hm
      simp [isMonoLayout] at hm
    | multi cs2 =>
      exact restoreStereo_multi _ cs2

end MediaEnhance
